import Mathlib

/-!
Verification of the Mattermost GitHub plugin (server/plugin package).

The Go sources are shallowly embedded: Go strings are modelled by `String`
(with rune-level helpers over `List Char` mirroring the `strings` package),
fallible operations return `Except`/`Option`, and every external collaborator
(KV store, GitHub client, chat-post sink) is supplied as an explicit
environment value so that each handler becomes a pure function from its
inputs and environment to its returned message and the list of side effects
it performs.
-/

namespace GithubPlugin

/-! ## Go string primitives

The `strings`/`unicode` standard-library functions used by the plugin,
modelled at the rune level (`List Char`). All definitions are structural so
that concrete inputs evaluate by `decide`/`rfl`.
-/

/-- Go `unicode.IsSpace`: the Unicode White_Space property (Latin-1 cases
plus the dedicated space code points). -/
def unicodeIsSpace (c : Char) : Bool :=
  c == '\t' || c == '\n' || c == Char.ofNat 11 || c == Char.ofNat 12 ||
  c == '\r' || c == ' ' || c == Char.ofNat 0x85 || c == Char.ofNat 0xA0 ||
  c == Char.ofNat 0x1680 ||
  (decide (0x2000 ≤ c.toNat) && decide (c.toNat ≤ 0x200A)) ||
  c == Char.ofNat 0x2028 || c == Char.ofNat 0x2029 || c == Char.ofNat 0x202F ||
  c == Char.ofNat 0x205F || c == Char.ofNat 0x3000

/-- Rune-level core of Go `strings.Split` for a one-rune separator. -/
def splitOnCharList (sep : Char) : List Char → List (List Char)
  | [] => [[]]
  | c :: cs =>
    if c = sep then [] :: splitOnCharList sep cs
    else
      match splitOnCharList sep cs with
      | [] => [[c]]
      | w :: ws => (c :: w) :: ws

/-- Go `strings.Split(s, sep)` for a one-rune separator `sep`. -/
def goSplit (s : String) (sep : Char) : List String :=
  (splitOnCharList sep s.toList).map String.mk

/-- Rune-level core of Go `strings.Join` for a one-rune separator. -/
def joinCharList (sep : Char) : List (List Char) → List Char
  | [] => []
  | [w] => w
  | w :: ws => w ++ sep :: joinCharList sep ws

/-- Go `strings.Join(l, sep)` for a one-rune separator `sep`. -/
def goJoin (l : List String) (sep : Char) : String :=
  String.mk (joinCharList sep (l.map String.toList))

/-- Go `strings.HasPrefix(s, p)`. -/
def goStartsWith (s p : String) : Bool :=
  p.toList.isPrefixOf s.toList

/-- Go `strings.ContainsRune(s, c)` (also `strings.Contains` with a one-rune
substring, as in `strings.Contains(username, ",")`). -/
def goContainsChar (s : String) (c : Char) : Bool :=
  s.toList.contains c

/-- Rune-level substring search. -/
def listIsInfix (needle : List Char) : List Char → Bool
  | [] => needle.isEmpty
  | c :: cs => needle.isPrefixOf (c :: cs) || listIsInfix needle cs

/-- Go `strings.Contains(s, sub)` for a general substring. -/
def goContainsSub (s sub : String) : Bool :=
  listIsInfix sub.toList s.toList

/-- Go `strings.ToLower`, restricted to ASCII case folding (every repository
and owner name handled by the plugin is ASCII). -/
def goToLower (s : String) : String :=
  String.mk (s.toList.map Char.toLower)

/-- Go `strings.Trim(s, cutset)` for a cutset given as a predicate. -/
def goTrim (s : String) (p : Char → Bool) : String :=
  String.mk (((s.toList.dropWhile p).reverse.dropWhile p).reverse)

/-- Go `strings.TrimSpace`. -/
def goTrimSpace (s : String) : String :=
  goTrim s unicodeIsSpace

/-! ## Feature constants and validation (command.go) -/

def featureIssueCreation : String := "issue_creations"
def featureIssues : String := "issues"
def featurePulls : String := "pulls"
def featurePullsMerged : String := "pulls_merged"
def featurePullsCreated : String := "pulls_created"
def featurePushes : String := "pushes"
def featureCreates : String := "creates"
def featureDeletes : String := "deletes"
def featureIssueComments : String := "issue_comments"
def featurePullReviews : String := "pull_reviews"
def featureStars : String := "stars"
def featureReleases : String := "releases"
def featureWorkflowFailure : String := "workflow_failure"
def featureWorkflowSuccess : String := "workflow_success"
def featureDiscussions : String := "discussions"
def featureDiscussionComments : String := "discussion_comments"

/-- The key set of the Go map `validFeatures` (all values are `true`). -/
def validFeaturesList : List String :=
  [featureIssueCreation, featureIssues, featurePulls, featurePullsMerged,
   featurePullsCreated, featurePushes, featureCreates, featureDeletes,
   featureIssueComments, featurePullReviews, featureStars, featureReleases,
   featureWorkflowFailure, featureWorkflowSuccess, featureDiscussions,
   featureDiscussionComments]

/-- Go `validFeatures[f]` membership test. -/
def validFeature (f : String) : Bool :=
  validFeaturesList.contains f

/-- Go `type Features string`. -/
abbrev Features := String

/-- `Features.ToSlice`: `strings.Split(string(features), ",")`. -/
def featuresToSlice (features : Features) : List String :=
  goSplit features ','

/-- `Features.FormattedString`. -/
def featuresFormattedString (features : Features) : String :=
  "`" ++ goJoin (goSplit features ',') ',' ++ "`"

/-- Loop state of `validateFeatures`: the mutables `valid`,
`invalidFeatures` and `hasLabel`. -/
structure VFState where
  valid : Bool
  invalidFeatures : List String
  hasLabel : Bool
  deriving Repr, DecidableEq

/-- One iteration of the first `for` loop of `validateFeatures`. -/
def validateFeaturesStep (st : VFState) (f : String) : VFState :=
  if validFeature f then st
  else if goStartsWith f "label" then { st with hasLabel := true }
  else { valid := false, invalidFeatures := st.invalidFeatures ++ [f], hasLabel := st.hasLabel }

/-- The second `for` loop of `validateFeatures`: at least one of `pulls`,
`issues`, `issue_creations` must be present when a label filter is used. -/
def hasLabelBaseFeature (features : List String) : Bool :=
  features.any (fun f => f == featurePulls || f == featureIssues || f == featureIssueCreation)

/-- `validateFeatures` (command.go): returns `(valid, invalidFeatures)`. -/
def validateFeatures (features : List String) : Bool × List String :=
  let st := features.foldl validateFeaturesStep ⟨true, [], false⟩
  if st.valid && st.hasLabel then
    if hasLabelBaseFeature features then (st.valid, st.invalidFeatures)
    else (false, st.invalidFeatures)
  else (st.valid, st.invalidFeatures)

/-- `SliceContainsString` (command.go). -/
def SliceContainsString (a : List String) (x : String) : Bool :=
  a.contains x

/-- `checkFeatureConflict` (command.go). -/
def checkFeatureConflict (fs : List String) : Bool × List String :=
  if SliceContainsString fs featureIssues && SliceContainsString fs featureIssueCreation then
    (false, [featureIssues, featureIssueCreation])
  else if SliceContainsString fs featurePulls && SliceContainsString fs featurePullsMerged then
    (false, [featurePulls, featurePullsMerged])
  else if SliceContainsString fs featurePulls && SliceContainsString fs featurePullsCreated then
    (false, [featurePulls, featurePullsCreated])
  else (true, [])

/-! ## Lemmas about `validateFeatures` -/

theorem foldl_validateFeaturesStep_valid (fs : List String) (st : VFState) :
    (fs.foldl validateFeaturesStep st).valid
      = (st.valid && fs.all (fun f => validFeature f || goStartsWith f "label")) := by
  induction fs generalizing st with
  | nil => simp
  | cons f fs ih =>
    simp only [List.foldl_cons, List.all_cons, ih, validateFeaturesStep]
    cases hv : validFeature f
    · cases hl : goStartsWith f "label" <;> simp [hv, hl, Bool.and_assoc]
    · simp [hv]

theorem foldl_validateFeaturesStep_hasLabel (fs : List String) (st : VFState) :
    (fs.foldl validateFeaturesStep st).hasLabel
      = (st.hasLabel || fs.any (fun f => !validFeature f && goStartsWith f "label")) := by
  induction fs generalizing st with
  | nil => simp
  | cons f fs ih =>
    simp only [List.foldl_cons, List.any_cons, ih, validateFeaturesStep]
    cases hv : validFeature f
    · cases hl : goStartsWith f "label" <;> simp [hv, hl, Bool.or_assoc]
    · simp [hv]

theorem foldl_validateFeaturesStep_invalid (fs : List String) (st : VFState) :
    (fs.foldl validateFeaturesStep st).invalidFeatures
      = st.invalidFeatures ++ fs.filter (fun f => !validFeature f && !goStartsWith f "label") := by
  induction fs generalizing st with
  | nil => simp
  | cons f fs ih =>
    simp only [List.foldl_cons, List.filter_cons, ih, validateFeaturesStep]
    cases hv : validFeature f
    · cases hl : goStartsWith f "label" <;> simp [hv, hl]
    · simp [hv]

theorem validFeature_not_label (f : String) (h : validFeature f = true) :
    goStartsWith f "label" = false := by
  have h' : f ∈ validFeaturesList := by
    simpa [validFeature, List.contains, List.elem_iff] using h
  fin_cases h' <;> decide

/-- The second component of `validateFeatures` is exactly the invalid (not
recognised, not label-prefixed) features, in input order. -/
theorem validateFeatures_snd (fs : List String) :
    (validateFeatures fs).2
      = fs.filter (fun f => !validFeature f && !goStartsWith f "label") := by
  have h := foldl_validateFeaturesStep_invalid fs ⟨true, [], false⟩
  unfold validateFeatures
  cases hc : ((fs.foldl validateFeaturesStep ⟨true, [], false⟩).valid
      && (fs.foldl validateFeaturesStep ⟨true, [], false⟩).hasLabel) <;>
    cases hb : hasLabelBaseFeature fs <;> simp [hc, hb, h]

theorem validateFeatures_fst_eq (fs : List String) :
    (validateFeatures fs).1
      = (fs.all (fun f => validFeature f || goStartsWith f "label")
          && (!(fs.any (fun f => !validFeature f && goStartsWith f "label"))
              || hasLabelBaseFeature fs)) := by
  have hv := foldl_validateFeaturesStep_valid fs ⟨true, [], false⟩
  have hl := foldl_validateFeaturesStep_hasLabel fs ⟨true, [], false⟩
  unfold validateFeatures
  cases ha : fs.all (fun f => validFeature f || goStartsWith f "label") <;>
    cases hy : fs.any (fun f => !validFeature f && goStartsWith f "label") <;>
      cases hb : hasLabelBaseFeature fs <;>
        simp_all

/-- Claim C2: for a feature list containing an element that starts with
`label`, `validateFeatures` returns `valid = false` when none of `issues`,
`pulls`, `issue_creations` is present, and returns `valid = true` when every
non-label element is a valid feature name and at least one of those three is
present. -/
theorem validateFeatures_label_requires_base (fs : List String)
    (hlab : ∃ f ∈ fs, goStartsWith f "label" = true) :
    ((∀ f ∈ fs, f ≠ featureIssues ∧ f ≠ featurePulls ∧ f ≠ featureIssueCreation) →
        (validateFeatures fs).1 = false)
    ∧ ((∀ f ∈ fs, goStartsWith f "label" = true ∨ validFeature f = true) →
        (∃ f ∈ fs, f = featureIssues ∨ f = featurePulls ∨ f = featureIssueCreation) →
        (validateFeatures fs).1 = true) := by
  obtain ⟨g, hg, hgl⟩ := hlab
  have hgv : validFeature g = false := by
    cases h : validFeature g
    · rfl
    · rw [validFeature_not_label g h] at hgl; exact absurd hgl (by simp)
  constructor
  · intro hnone
    rw [validateFeatures_fst_eq]
    have hany : fs.any (fun f => !validFeature f && goStartsWith f "label") = true := by
      rw [List.any_eq_true]
      exact ⟨g, hg, by simp [hgv, hgl]⟩
    have hbase : hasLabelBaseFeature fs = false := by
      rw [hasLabelBaseFeature]
      rw [List.any_eq_false]
      intro f hf
      obtain ⟨h1, h2, h3⟩ := hnone f hf
      simp [h1, h2, h3]
    simp [hany, hbase]
  · intro hall hbase
    rw [validateFeatures_fst_eq]
    have h1 : fs.all (fun f => validFeature f || goStartsWith f "label") = true := by
      rw [List.all_eq_true]
      intro f hf
      rcases hall f hf with h | h <;> simp [h]
    have h2 : hasLabelBaseFeature fs = true := by
      rw [hasLabelBaseFeature, List.any_eq_true]
      obtain ⟨f, hf, hor⟩ := hbase
      refine ⟨f, hf, ?_⟩
      rcases hor with h | h | h <;> simp [h]
    simp [h1, h2]

theorem validateFeatures_label_requires_base_witness :
    (validateFeatures ["pushes", "label:\"ruby\""]).1 = false
    ∧ (validateFeatures ["issues", "label:\"ruby\""]).1 = true :=
  ⟨(validateFeatures_label_requires_base ["pushes", "label:\"ruby\""]
      (by decide)).1 (by decide),
   (validateFeatures_label_requires_base ["issues", "label:\"ruby\""]
      (by decide)).2 (by decide) (by decide)⟩

/-- Claim C6: the set of valid feature categories is the fixed closed set of
exactly the 16 listed names: an input feature that does not start with
`label` is reported invalid by `validateFeatures` if and only if it is not
one of the 16. -/
theorem validateFeatures_closed_set (fs : List String) (f : String)
    (hf : f ∈ fs) (hl : goStartsWith f "label" = false) :
    (f ∈ (validateFeatures fs).2
      ↔ f ∉ (["issue_creations", "issues", "pulls", "pulls_merged",
              "pulls_created", "pushes", "creates", "deletes",
              "issue_comments", "pull_reviews", "stars", "releases",
              "workflow_failure", "workflow_success", "discussions",
              "discussion_comments"] : List String)) := by
  rw [validateFeatures_snd, List.mem_filter]
  have hset : ∀ g : String,
      validFeature g = true ↔
        g ∈ (["issue_creations", "issues", "pulls", "pulls_merged",
              "pulls_created", "pushes", "creates", "deletes",
              "issue_comments", "pull_reviews", "stars", "releases",
              "workflow_failure", "workflow_success", "discussions",
              "discussion_comments"] : List String) := by
    intro g
    simp [validFeature, List.contains, List.elem_iff, validFeaturesList,
      featureIssueCreation, featureIssues, featurePulls, featurePullsMerged,
      featurePullsCreated, featurePushes, featureCreates, featureDeletes,
      featureIssueComments, featurePullReviews, featureStars, featureReleases,
      featureWorkflowFailure, featureWorkflowSuccess, featureDiscussions,
      featureDiscussionComments]
  constructor
  · intro h
    have := h.2
    simp [hl] at this
    rw [← hset f]
    simp [this]
  · intro h
    refine ⟨hf, ?_⟩
    have : validFeature f = false := by
      cases hc : validFeature f
      · rfl
      · exact absurd ((hset f).mp hc) h
    simp [this, hl]

theorem validateFeatures_closed_set_witness :
    "bogus" ∈ (validateFeatures ["creates", "bogus"]).2 :=
  (validateFeatures_closed_set ["creates", "bogus"] "bogus"
    (by decide) (by decide)).mpr (by decide)

/-! ## Muted users (command.go)

The KV store value under `userID + "-muted-users"` is a single string; the
store is modelled by passing that string (empty when the key is absent, as
the pluginapi `Get` leaves the byte slice nil) plus booleans for the
`Get`/`Set` error outcomes. -/

/-- The KV key used by the muted-users record. -/
def mutedUsersKey (userID : String) : String :=
  userID ++ "-muted-users"

/-- `getMutedUsernames` (command.go): split the stored string on commas,
returning the empty list for an empty stored value. -/
def getMutedUsernames (stored : String) : List String :=
  if stored.length = 0 then [] else goSplit stored ','

/-- Outcome of `handleMuteAdd`: the returned message and the value written
to the muted-users key (`none` when no `Set` is attempted). -/
structure MuteAddResult where
  message : String
  write : Option String
  deriving Repr, DecidableEq

/-- `handleMuteAdd` (command.go). `getOk` is the error outcome of the KV
`Get` inside `getMutedUsernames`; `setOk` that of the KV `Set`. -/
def handleMuteAdd (username stored : String) (getOk setOk : Bool) : MuteAddResult :=
  if !getOk then
    { message := "An error occurred getting muted users. Please try again later", write := none }
  else
    let mutedUsernames := getMutedUsernames stored
    if mutedUsernames.contains username then
      { message := username ++ " is already muted", write := none }
    else if goContainsChar username ',' then
      { message := "Invalid username provided", write := none }
    else
      let mutedUsers :=
        if mutedUsernames.length > 0 then goJoin mutedUsernames ',' ++ "," ++ username
        else username
      if setOk then
        { message := "`" ++ username ++ "`"
            ++ " is now muted. You'll no longer receive notifications for comments in your PRs and issues."
          write := some mutedUsers }
      else
        { message := "Error occurred saving list of muted users", write := some mutedUsers }

/-! ### Split/join round-trip lemmas -/

theorem splitOnCharList_ne_nil (sep : Char) (l : List Char) :
    splitOnCharList sep l ≠ [] := by
  cases l with
  | nil => simp [splitOnCharList]
  | cons c cs =>
    simp only [splitOnCharList]
    split
    · simp
    · split <;> simp

theorem mem_splitOnCharList_not_sep (sep : Char) (l : List Char) :
    ∀ w ∈ splitOnCharList sep l, sep ∉ w := by
  induction l with
  | nil => intro w hw; simp [splitOnCharList] at hw; simp [hw]
  | cons c cs ih =>
    intro w hw
    simp only [splitOnCharList] at hw
    by_cases hc : c = sep
    · simp [hc] at hw
      rcases hw with h | h
      · simp [h]
      · exact ih w h
    · simp [hc] at hw
      rcases h : splitOnCharList sep cs with _ | ⟨v, vs⟩
      · exact absurd h (splitOnCharList_ne_nil sep cs)
      · rw [h] at hw
        simp at hw
        rcases hw with h1 | h1
        · subst h1
          intro hmem
          rcases List.mem_cons.mp hmem with h2 | h2
          · exact hc h2.symm
          · exact ih v (by simp [h]) h2
        · exact ih w (by simp [h, h1])

theorem splitOnCharList_no_sep (sep : Char) (w : List Char) (hw : sep ∉ w) :
    splitOnCharList sep w = [w] := by
  induction w with
  | nil => simp [splitOnCharList]
  | cons c cs ih =>
    have hc : ¬ c = sep := fun h => hw (by simp [h])
    have hcs : sep ∉ cs := fun h => hw (by simp [h])
    simp only [splitOnCharList, if_neg hc, ih hcs]

theorem splitOnCharList_append_sep (sep : Char) (w t : List Char) (hw : sep ∉ w) :
    splitOnCharList sep (w ++ sep :: t) = w :: splitOnCharList sep t := by
  induction w with
  | nil => simp [splitOnCharList]
  | cons c cs ih =>
    have hc : ¬ c = sep := fun h => hw (by simp [h])
    have hcs : sep ∉ cs := fun h => hw (by simp [h])
    simp only [List.cons_append, splitOnCharList, if_neg hc, List.append_eq, ih hcs]

theorem splitOnCharList_joinCharList (sep : Char) (ws : List (List Char))
    (hne : ws ≠ []) (hsep : ∀ w ∈ ws, sep ∉ w) :
    splitOnCharList sep (joinCharList sep ws) = ws := by
  induction ws with
  | nil => exact absurd rfl hne
  | cons w ws ih =>
    cases ws with
    | nil =>
      simp only [joinCharList]
      exact splitOnCharList_no_sep sep w (hsep w (by simp))
    | cons v vs =>
      have h1 : joinCharList sep (w :: v :: vs) = w ++ sep :: joinCharList sep (v :: vs) := rfl
      rw [h1, splitOnCharList_append_sep sep w _ (hsep w (by simp))]
      rw [ih (by simp) (fun u hu => hsep u (by simp [hu]))]

theorem joinCharList_snoc (sep : Char) (ws : List (List Char)) (y : List Char)
    (hne : ws ≠ []) :
    joinCharList sep (ws ++ [y]) = joinCharList sep ws ++ sep :: y := by
  induction ws with
  | nil => exact absurd rfl hne
  | cons w ws ih =>
    cases ws with
    | nil => rfl
    | cons v vs =>
      have h1 : (w :: v :: vs) ++ [y] = w :: ((v :: vs) ++ [y]) := rfl
      rw [h1]
      have h2 : joinCharList sep (w :: ((v :: vs) ++ [y]))
          = w ++ sep :: joinCharList sep ((v :: vs) ++ [y]) := by
        cases vs <;> rfl
      rw [h2, ih (by simp)]
      rw [show joinCharList sep (w :: v :: vs) = w ++ sep :: joinCharList sep (v :: vs) from rfl]
      simp [List.append_assoc]

theorem joinCharList_ne_nil (sep : Char) (w : List Char) (ws : List (List Char))
    (hw : w ≠ []) : joinCharList sep (w :: ws) ≠ [] := by
  cases ws with
  | nil => simpa [joinCharList]
  | cons v vs =>
    have : joinCharList sep (w :: v :: vs) = w ++ sep :: joinCharList sep (v :: vs) := rfl
    rw [this]
    simp [hw]

theorem string_mk_toList (s : String) : String.mk s.toList = s := rfl

theorem string_toList_append (a b : String) :
    (a ++ b).toList = a.toList ++ b.toList := by
  cases a; cases b; rfl

theorem goSplit_goJoin (names : List String) (sep : Char)
    (hne : names ≠ []) (hsep : ∀ n ∈ names, ¬ goContainsChar n sep) :
    goSplit (goJoin names sep) sep = names := by
  unfold goSplit goJoin
  have h1 : (String.mk (joinCharList sep (names.map String.toList))).toList
      = joinCharList sep (names.map String.toList) := rfl
  rw [h1, splitOnCharList_joinCharList sep _ (by simpa using hne)]
  · rw [List.map_map]
    have : ∀ x ∈ names, (String.mk ∘ String.toList) x = id x := by
      intro x hx; simp [string_mk_toList]
    rw [List.map_congr_left this, List.map_id]
  · intro w hw
    obtain ⟨n, hn, rfl⟩ := List.mem_map.mp hw
    have := hsep n hn
    simpa [goContainsChar] using this

theorem string_mk_append (a b : List Char) :
    String.mk a ++ String.mk b = String.mk (a ++ b) := rfl

theorem string_ext_toList {a b : String} (h : a.toList = b.toList) : a = b := by
  cases a
  cases b
  exact congrArg String.mk h

theorem string_toList_eq_nil_iff (s : String) : s.toList = [] ↔ s = "" := by
  constructor
  · intro h
    exact string_ext_toList h
  · intro h
    rw [h]
    rfl

theorem mem_goSplit_no_sep (s : String) (sep : Char) (x : String)
    (hx : x ∈ goSplit s sep) : goContainsChar x sep = false := by
  unfold goSplit at hx
  obtain ⟨w, hw, rfl⟩ := List.mem_map.mp hx
  have hnot := mem_splitOnCharList_not_sep sep s.toList w hw
  cases h : goContainsChar (String.mk w) sep
  · rfl
  · exact absurd (by simpa [goContainsChar, List.contains, List.elem_iff] using h) hnot

theorem getMutedUsernames_goJoin (names : List String)
    (h : ∀ n ∈ names, n ≠ "" ∧ goContainsChar n ',' = false) :
    getMutedUsernames (goJoin names ',') = names := by
  cases hn : names with
  | nil => simp [getMutedUsernames, goJoin, joinCharList, String.length]
  | cons n ns =>
    have hhd : n.toList ≠ [] := by
      intro hc
      exact (h n (by simp [hn])).1 ((string_toList_eq_nil_iff n).mp hc)
    have hlen : (goJoin (n :: ns) ',').length ≠ 0 := by
      have hne := joinCharList_ne_nil ',' n.toList (ns.map String.toList) hhd
      simpa [goJoin, String.length, List.length_eq_zero] using hne
    rw [getMutedUsernames, if_neg hlen]
    exact goSplit_goJoin (n :: ns) ',' (by simp)
      (fun m hm => by simpa using (h m (by rw [hn]; exact hm)).2)

theorem goJoin_snoc (names : List String) (u : String) (hne : names ≠ []) :
    goJoin (names ++ [u]) ',' = goJoin names ',' ++ "," ++ u := by
  apply string_ext_toList
  rw [string_toList_append, string_toList_append]
  show joinCharList ',' ((names ++ [u]).map String.toList)
      = joinCharList ',' (names.map String.toList) ++ [','] ++ u.toList
  rw [List.map_append, List.map_cons, List.map_nil,
    joinCharList_snoc ',' (names.map String.toList) u.toList (by simpa using hne)]
  simp

/-- Claim C9: the muted-users record keeps comma-free names. `handleMuteAdd`
rejects any comma-containing username with `Invalid username provided` and
no store write, rejects an already-muted username without writing, and when
it succeeds on a store holding a comma-join of comma-free names, the updated
value read back through `getMutedUsernames` is the previous list with the
new username appended at the end. -/
theorem handleMuteAdd_comma_invariant :
    (∀ username stored setOk, goContainsChar username ',' = true →
        handleMuteAdd username stored true setOk
          = { message := "Invalid username provided", write := none })
    ∧ (∀ username stored setOk,
        (getMutedUsernames stored).contains username = true →
        (handleMuteAdd username stored true setOk).write = none)
    ∧ (∀ (names : List String) (username : String),
        (∀ n ∈ names, n ≠ "" ∧ goContainsChar n ',' = false) →
        username ∉ names → username ≠ "" → goContainsChar username ',' = false →
        ∃ ns, (handleMuteAdd username (goJoin names ',') true true).write = some ns
          ∧ getMutedUsernames ns = names ++ [username]) := by
  refine ⟨?_, ?_, ?_⟩
  · intro username stored setOk hcomma
    have hnotmem : username ∉ getMutedUsernames stored := by
      unfold getMutedUsernames
      split
      · simp
      · intro hmem
        rw [mem_goSplit_no_sep stored ',' username hmem] at hcomma
        exact absurd hcomma (by simp)
    simp [handleMuteAdd, hnotmem, hcomma]
  · intro username stored setOk hmem
    have hm : username ∈ getMutedUsernames stored := by
      simpa [List.contains, List.elem_iff] using hmem
    simp [handleMuteAdd, hm]
  · intro names username hnames hnot hne hcomma
    have hmuted : getMutedUsernames (goJoin names ',') = names :=
      getMutedUsernames_goJoin names hnames
    have hnm : names.contains username = false := by
      cases hc : names.contains username
      · rfl
      · exact absurd (by simpa [List.contains, List.elem_iff] using hc) hnot
    have hall : ∀ n ∈ names ++ [username], n ≠ "" ∧ goContainsChar n ',' = false := by
      intro n hn
      rcases List.mem_append.mp hn with h | h
      · exact hnames n h
      · simp at h; subst h; exact ⟨hne, hcomma⟩
    refine ⟨goJoin (names ++ [username]) ',', ?_, ?_⟩
    · unfold handleMuteAdd
      rw [hmuted]
      simp only [hnot, hcomma]
      cases hn : names with
      | nil => simp [goJoin, joinCharList]
      | cons m ms =>
        rw [goJoin_snoc (m :: ms) username (by simp)]
        have hnot' : ¬(username = m ∨ username ∈ ms) := by
          rw [hn] at hnot
          simpa using hnot
        simp [hnot']
    · exact getMutedUsernames_goJoin (names ++ [username]) hall

theorem handleMuteAdd_comma_invariant_witness :
    handleMuteAdd "evil,name" "alice,bob" true true
        = { message := "Invalid username provided", write := none }
    ∧ (handleMuteAdd "alice" "alice,bob" true true).write = none
    ∧ ∃ ns, (handleMuteAdd "carol" (goJoin ["alice", "bob"] ',') true true).write = some ns
        ∧ getMutedUsernames ns = ["alice", "bob", "carol"] :=
  ⟨handleMuteAdd_comma_invariant.1 "evil,name" "alice,bob" true (by decide),
   handleMuteAdd_comma_invariant.2.1 "alice" "alice,bob" true (by decide),
   handleMuteAdd_comma_invariant.2.2 ["alice", "bob"] "carol"
     (by decide) (by decide) (by decide) (by decide)⟩

/-! ## Slash-command tokenisation (command.go `parseCommand`)

The Go function builds a token list `split` and then reads `split[0]`
unconditionally; in Go that access panics when `split` is empty. The
embedding returns `Option`: `none` exactly on the inputs where the Go code
would panic. `ExecuteCommand` (command.go) calls
`parseCommand(args.Command)` on the raw command string as its first step. -/

/-- Loop state of `parseCommand`: the mutables `split`, `current`,
`inQuotes`. -/
structure PCState where
  split : List String
  current : String
  inQuotes : Bool
  deriving Repr, DecidableEq

/-- One iteration of the rune loop of `parseCommand`. -/
def parseCommandStep (st : PCState) (c : Char) : PCState :=
  if unicodeIsSpace c then
    if st.inQuotes then { st with current := st.current.push ' ' }
    else if st.current.length = 0 then st
    else { split := st.split ++ [st.current], current := "", inQuotes := st.inQuotes }
  else
    { split := st.split
      current := st.current.push c
      inQuotes := if c == '"' then !st.inQuotes else st.inQuotes }

/-- Final token list of `parseCommand`: the trailing
`if len(current) > 0 then split = append(split, current)`. -/
def pcFinalSplit (st : PCState) : List String :=
  if st.current.length > 0 then st.split ++ [st.current] else st.split

/-- Tail of `parseCommand`: the reads of `split[0]`, `split[1]` and
`split[2:]`; `none` models the panicking `split[0]` access on an empty
token list. -/
def pcResult (split : List String) : Option (String × String × List String) :=
  match split with
  | [] => none
  | command :: rest =>
    let action := match rest with
      | [] => ""
      | a :: _ => a
    some (command, action, rest.drop 1)

/-- `parseCommand` (command.go): returns `(command, action, parameters)`,
or `none` where the Go original would access `split[0]` out of bounds. -/
def parseCommand (input : String) : Option (String × String × List String) :=
  pcResult (pcFinalSplit (input.toList.foldl parseCommandStep ⟨[], "", false⟩))

theorem pcResult_eq_none_iff (split : List String) :
    pcResult split = none ↔ split = [] := by
  cases split <;> simp [pcResult]

theorem pcFinalSplit_eq_nil_iff (st : PCState) :
    pcFinalSplit st = [] ↔ (st.split = [] ∧ st.current.length = 0) := by
  unfold pcFinalSplit
  by_cases h : st.current.length > 0
  · rw [if_pos h]
    simp
    omega
  · rw [if_neg h]
    simp
    omega

theorem foldl_parseCommandStep_all_space (l : List Char)
    (h : ∀ c ∈ l, unicodeIsSpace c = true) :
    l.foldl parseCommandStep ⟨[], "", false⟩ = ⟨[], "", false⟩ := by
  induction l with
  | nil => rfl
  | cons c cs ih =>
    have hc := h c (by simp)
    have hstep : parseCommandStep ⟨[], "", false⟩ c = ⟨[], "", false⟩ := by
      simp [parseCommandStep, hc]
    rw [List.foldl_cons, hstep]
    exact ih (fun d hd => h d (by simp [hd]))

/-- The nonemptiness invariant of the `parseCommand` loop. -/
def pcNonempty (st : PCState) : Prop :=
  st.split ≠ [] ∨ st.current.length ≠ 0

theorem string_push_length (s : String) (c : Char) :
    (s.push c).length = s.length + 1 := by
  cases s
  simp [String.push, String.length]

theorem parseCommandStep_preserves (st : PCState) (c : Char)
    (h : pcNonempty st) : pcNonempty (parseCommandStep st c) := by
  unfold parseCommandStep pcNonempty
  by_cases hs : unicodeIsSpace c = true
  · rw [if_pos hs]
    by_cases hq : st.inQuotes = true
    · rw [if_pos hq]
      right
      show (st.current.push ' ').length ≠ 0
      rw [string_push_length]
      omega
    · rw [if_neg hq]
      by_cases hlen : st.current.length = 0
      · rw [if_pos hlen]
        rcases h with h | h
        · exact Or.inl h
        · exact absurd hlen h
      · rw [if_neg hlen]
        left
        simp
  · rw [if_neg hs]
    right
    show (st.current.push c).length ≠ 0
    rw [string_push_length]
    omega

theorem parseCommandStep_establishes (st : PCState) (c : Char)
    (h : unicodeIsSpace c = false) : pcNonempty (parseCommandStep st c) := by
  unfold parseCommandStep pcNonempty
  rw [if_neg (by simp [h])]
  right
  show (st.current.push c).length ≠ 0
  rw [string_push_length]
  omega

theorem foldl_parseCommandStep_preserves (l : List Char) (st : PCState)
    (h : pcNonempty st) : pcNonempty (l.foldl parseCommandStep st) := by
  induction l generalizing st with
  | nil => exact h
  | cons c cs ih =>
    rw [List.foldl_cons]
    exact ih _ (parseCommandStep_preserves st c h)

theorem foldl_parseCommandStep_nonempty (l : List Char) (st : PCState)
    (h : ∃ c ∈ l, unicodeIsSpace c = false) :
    pcNonempty (l.foldl parseCommandStep st) := by
  induction l generalizing st with
  | nil => simp at h
  | cons c cs ih =>
    rw [List.foldl_cons]
    cases hc : unicodeIsSpace c
    · exact foldl_parseCommandStep_preserves cs _ (parseCommandStep_establishes st c hc)
    · refine ih _ ?_
      rcases h with ⟨d, hd, hdf⟩
      rcases List.mem_cons.mp hd with rfl | hmem
      · rw [hc] at hdf
        exact absurd hdf (by simp)
      · exact ⟨d, hmem, hdf⟩

/-- Claim C8: `parseCommand` is not total. The embedding returns `none`
(the Go original panics on `split[0]`) exactly when the input is empty or
consists only of whitespace runes; for every input containing a
non-whitespace rune the head access is in bounds (`isSome`). -/
theorem parseCommand_none_iff_whitespace (input : String) :
    (parseCommand input = none ↔ input.toList.all unicodeIsSpace = true) := by
  constructor
  · intro h
    cases hall : input.toList.all unicodeIsSpace
    · exfalso
      have hex : ∃ c ∈ input.toList, unicodeIsSpace c = false := by
        rcases List.all_eq_false.mp hall with ⟨c, hc, hcf⟩
        exact ⟨c, hc, by simpa using hcf⟩
      have hne := foldl_parseCommandStep_nonempty input.toList ⟨[], "", false⟩ hex
      unfold parseCommand at h
      rw [pcResult_eq_none_iff, pcFinalSplit_eq_nil_iff] at h
      rcases hne with hs | hc
      · exact hs h.1
      · exact hc h.2
    · rfl
  · intro h
    have hfold := foldl_parseCommandStep_all_space input.toList
      (fun c hc => by
        have := List.all_eq_true.mp h c hc
        simpa using this)
    unfold parseCommand
    rw [hfold]
    rfl

/-! ## Subscriptions (subscriptions.go)

The Go map `Subscriptions.Repositories : map[string][]*Subscription` is
modelled as an association list; quantifying over all association lists in
particular covers every iteration order of the Go map. `sort.Slice` with
the comparator `Repository <` is modelled by `List.insertionSort` with the
total relation `Repository ≤`. -/

/-- `SubscriptionFlags` (subscriptions.go). -/
structure SubscriptionFlags where
  ExcludeOrgMembers : Bool := false
  IncludeOnlyOrgMembers : Bool := false
  RenderStyle : String := ""
  ExcludeRepository : List String := []
  deriving Repr, DecidableEq

/-- `Subscription` (subscriptions.go). -/
structure Subscription where
  ChannelID : String
  CreatorID : String
  Features : Features
  Flags : SubscriptionFlags
  Repository : String
  deriving Repr, DecidableEq

/-- `Subscriptions` (subscriptions.go); the Go map as an association list. -/
structure Subscriptions where
  Repositories : List (String × List Subscription)
  deriving Repr, DecidableEq

/-- Filtering pass of `GetSubscriptionsByChannel`: keep the subscriptions of
`channelID`, patching an empty `Repository` field from the map key (the
backwards-compatibility branch). -/
def collectChannelSubs (channelID : String) : List (String × List Subscription) → List Subscription
  | [] => []
  | (repo, v) :: rest =>
    (v.filterMap (fun s =>
      if s.ChannelID = channelID then
        some (if s.Repository.length = 0 then { s with Repository := repo } else s)
      else none))
    ++ collectChannelSubs channelID rest

/-- The `sort.Slice` comparator of `GetSubscriptionsByChannel`, as the
corresponding non-strict total order. -/
def subRepoLe (a b : Subscription) : Prop :=
  a.Repository ≤ b.Repository

instance : DecidableRel subRepoLe := fun a b =>
  inferInstanceAs (Decidable (a.Repository ≤ b.Repository))

instance : IsTotal Subscription subRepoLe where
  total a b := le_total a.Repository b.Repository

instance : IsTrans Subscription subRepoLe where
  trans _ _ _ h1 h2 := le_trans h1 h2

/-- `GetSubscriptionsByChannel` (subscriptions.go). -/
def GetSubscriptionsByChannel (subs : Subscriptions) (channelID : String) :
    List Subscription :=
  List.insertionSort subRepoLe (collectChannelSubs channelID subs.Repositories)

/-- `SubscriptionFlags.String` (subscriptions.go). -/
def subscriptionFlagsString (s : SubscriptionFlags) : String :=
  let flags : List String := []
  let flags := if s.ExcludeOrgMembers then flags ++ ["--exclude-org-member true"] else flags
  let flags := if s.IncludeOnlyOrgMembers then flags ++ ["--include-only-org-members true"] else flags
  let flags := if s.RenderStyle ≠ "" then flags ++ ["--render-style " ++ s.RenderStyle] else flags
  let flags := if s.ExcludeRepository.length > 0 then
      flags ++ ["--exclude " ++ goJoin s.ExcludeRepository ','] else flags
  goJoin flags ','

/-- `handleSubscriptionsList` (command.go); the argument is the outcome of
`GetSubscriptionsByChannel` (an `Except` for the KV `Get` error path). -/
def handleSubscriptionsList (subsRes : Except String Subscriptions)
    (channelID : String) : String :=
  match subsRes with
  | Except.error e => e
  | Except.ok s =>
    let subs := GetSubscriptionsByChannel s channelID
    let txt := if subs.length = 0 then "Currently there are no subscriptions in this channel"
      else "### Subscriptions in this channel\n"
    subs.foldl (fun txt sub =>
      let subFlags := subscriptionFlagsString sub.Flags
      let line := "* `" ++ goTrim sub.Repository (fun c => c == '/') ++ "` - " ++ sub.Features
      let line := if subFlags ≠ "" then line ++ " " ++ subFlags else line
      txt ++ line ++ "\n") txt

/-- Claim C7: listing a channel's subscriptions enumerates them in
ascending lexicographic order of the repository key: the output of
`GetSubscriptionsByChannel` (the data source of `handleSubscriptionsList`)
is a permutation of the channel's subscriptions that is sorted by the
`Repository` field. -/
theorem getSubscriptionsByChannel_sorted (subs : Subscriptions) (channelID : String) :
    List.Pairwise subRepoLe (GetSubscriptionsByChannel subs channelID)
    ∧ List.Perm (GetSubscriptionsByChannel subs channelID)
        (collectChannelSubs channelID subs.Repositories) := by
  constructor
  · exact List.sorted_insertionSort subRepoLe (collectChannelSubs channelID subs.Repositories)
  · exact List.perm_insertionSort subRepoLe (collectChannelSubs channelID subs.Repositories)

/-! ## OAuth connect waiter (api.go `connectUserToGitHub`) -/

/-- Timeout of the OAuth-completion wait: `context.WithTimeout(...,
45*time.Second)` in `connectUserToGitHub`. -/
def oauthCompleteTimeoutSeconds : Nat := 45

/-- Outcome of the `select` in the waiter goroutine: the per-user
completion channel delivered a value (`received (some msg)` an error with
message `msg`, `received none` the nil error of a successful publish), or
the 45-second deadline fired first. -/
inductive OAuthWaitOutcome where
  | received (err : Option String)
  | timeout
  deriving Repr, DecidableEq

/-- Observable actions of the waiter goroutine, in program order. -/
inductive OAuthWaiterAction where
  | dmFailure (userID message : String)
  | unsubscribeOAuthComplete (userID : String)
  deriving Repr, DecidableEq

/-- Body of the goroutine spawned by `connectUserToGitHub` after
`SubscribeOAuthComplete(c.UserID)`, as a function of the select outcome
(api.go lines 338-363). -/
def oauthConnectWaiter (userID : String) (outcome : OAuthWaitOutcome) :
    List OAuthWaiterAction :=
  let errorMsg : String :=
    match outcome with
    | OAuthWaitOutcome.received none => ""
    | OAuthWaitOutcome.received (some e) => e
    | OAuthWaitOutcome.timeout =>
        "Timed out waiting for OAuth connection. Please check if the SiteURL is correct."
  (if errorMsg ≠ "" then
    [OAuthWaiterAction.dmFailure userID
      ("There was an error connecting to your GitHub: `" ++ errorMsg
        ++ "` Please double check your configuration.")]
  else [])
  ++ [OAuthWaiterAction.unsubscribeOAuthComplete userID]

/-- Claim C4: the OAuth connect waiter is bounded by 45 seconds; on a
delivered error or on timeout it sends a failure DM, and on every path
(success, error or timeout) its last action unsubscribes the per-user
channel registration, so no wait registration leaks. -/
theorem oauthConnectWaiter_always_unsubscribes (userID : String)
    (outcome : OAuthWaitOutcome) :
    (oauthConnectWaiter userID outcome).getLast?
        = some (OAuthWaiterAction.unsubscribeOAuthComplete userID)
    ∧ (outcome = OAuthWaitOutcome.timeout →
        ∃ m, OAuthWaiterAction.dmFailure userID m ∈ oauthConnectWaiter userID outcome)
    ∧ (∀ e, e ≠ "" → outcome = OAuthWaitOutcome.received (some e) →
        ∃ m, OAuthWaiterAction.dmFailure userID m ∈ oauthConnectWaiter userID outcome)
    ∧ (outcome = OAuthWaitOutcome.received none →
        ∀ m, OAuthWaiterAction.dmFailure userID m ∉ oauthConnectWaiter userID outcome)
    ∧ oauthCompleteTimeoutSeconds = 45 := by
  refine ⟨?_, ?_, ?_, ?_, rfl⟩
  · rcases outcome with e | _
    · rcases e with _ | e
      · rfl
      · by_cases he : e = "" <;> simp [oauthConnectWaiter, he]
    · rfl
  · intro h
    subst h
    exact ⟨"There was an error connecting to your GitHub: `Timed out waiting for OAuth connection. Please check if the SiteURL is correct.` Please double check your configuration.",
      by simp [oauthConnectWaiter]⟩
  · intro e he h
    subst h
    exact ⟨"There was an error connecting to your GitHub: `" ++ e
        ++ "` Please double check your configuration.",
      by simp [oauthConnectWaiter, he]⟩
  · intro h
    subst h
    intro m
    simp [oauthConnectWaiter]

theorem oauthConnectWaiter_always_unsubscribes_witness :
    (oauthConnectWaiter "user1" OAuthWaitOutcome.timeout).getLast?
        = some (OAuthWaiterAction.unsubscribeOAuthComplete "user1")
    ∧ ∃ m, OAuthWaiterAction.dmFailure "user1" m
        ∈ oauthConnectWaiter "user1" OAuthWaitOutcome.timeout :=
  ⟨(oauthConnectWaiter_always_unsubscribes "user1" OAuthWaitOutcome.timeout).1,
   (oauthConnectWaiter_always_unsubscribes "user1" OAuthWaitOutcome.timeout).2.1 rfl⟩

/-! ## Webhook delivery dedup broker

Modelled from the spec: the webhook delivery dedup code is in a repository
file not under src/. Spec section 4.5: per delivery key the state machine
is `Unseen → Locked → Done`; `Unseen → Locked` goes through a cluster-wide
mutual-exclusion lease (when acquisition fails the caller returns
immediately without delivering); the posts to the matched channels happen
inside the critical section; `Locked → Done` is set after delivery and a
later lock holder that sees the done marker skips delivering. Two plugin
instances processing the same delivery identifier concurrently are
modelled as an arbitrary interleaving of atomic steps over the shared
per-key record; `posts` counts the posts made to one fixed matched
channel. -/

/-- Program counter of one instance processing the delivery. -/
inductive DeliveryPC where
  | start
  | inCrit
  | posted
  | finished (didPost : Bool)
  deriving Repr, DecidableEq

/-- Shared cluster state for one delivery identifier. -/
structure BrokerShared where
  locked : Bool
  done : Bool
  posts : Nat
  deriving Repr, DecidableEq

/-- One atomic step of a delivery-processing instance. -/
def brokerStep (sh : BrokerShared) (pc : DeliveryPC) : BrokerShared × DeliveryPC :=
  match pc with
  | DeliveryPC.start =>
    if sh.locked then (sh, DeliveryPC.finished false)
    else ({ sh with locked := true }, DeliveryPC.inCrit)
  | DeliveryPC.inCrit =>
    if sh.done then ({ sh with locked := false }, DeliveryPC.finished false)
    else ({ sh with posts := sh.posts + 1 }, DeliveryPC.posted)
  | DeliveryPC.posted =>
    ({ locked := false, done := true, posts := sh.posts }, DeliveryPC.finished true)
  | DeliveryPC.finished b => (sh, DeliveryPC.finished b)

/-- Global state: the shared record plus the two instances. -/
structure BrokerState where
  sh : BrokerShared
  a : DeliveryPC
  b : DeliveryPC
  deriving Repr, DecidableEq

def brokerInit : BrokerState :=
  ⟨⟨false, false, 0⟩, DeliveryPC.start, DeliveryPC.start⟩

/-- One scheduler choice: `true` steps instance A, `false` steps B. -/
def brokerSched (st : BrokerState) (choice : Bool) : BrokerState :=
  if choice then
    ⟨(brokerStep st.sh st.a).1, (brokerStep st.sh st.a).2, st.b⟩
  else
    ⟨(brokerStep st.sh st.b).1, st.a, (brokerStep st.sh st.b).2⟩

/-- Run the two instances under an arbitrary finite schedule. -/
def brokerRun (sched : List Bool) : BrokerState :=
  sched.foldl brokerSched brokerInit

def inCritSec : DeliveryPC → Bool
  | DeliveryPC.inCrit => true
  | DeliveryPC.posted => true
  | _ => false

def contributed : DeliveryPC → Nat
  | DeliveryPC.posted => 1
  | DeliveryPC.finished true => 1
  | _ => 0

def finishedTrue : DeliveryPC → Bool
  | DeliveryPC.finished true => true
  | _ => false

def isFinished : DeliveryPC → Bool
  | DeliveryPC.finished _ => true
  | _ => false

/-- The inductive invariant of the interleaved broker. -/
def brokerInv (st : BrokerState) : Prop :=
  st.sh.locked = (inCritSec st.a || inCritSec st.b)
  ∧ ¬(inCritSec st.a = true ∧ inCritSec st.b = true)
  ∧ st.sh.posts = contributed st.a + contributed st.b
  ∧ st.sh.done = (finishedTrue st.a || finishedTrue st.b)
  ∧ ¬(contributed st.a = 1 ∧ contributed st.b = 1)
  ∧ ¬(st.a = DeliveryPC.finished false ∧ st.b = DeliveryPC.finished false)

theorem brokerInv_init : brokerInv brokerInit := by
  refine ⟨rfl, by simp [brokerInit, inCritSec], rfl, rfl,
    by simp [brokerInit, contributed], by simp [brokerInit]⟩

theorem brokerInv_step (st : BrokerState) (choice : Bool)
    (h : brokerInv st) : brokerInv (brokerSched st choice) := by
  obtain ⟨⟨lk, dn, ps⟩, a, b⟩ := st
  obtain ⟨h1, h2, h3, h4, h5, h6⟩ := h
  cases choice <;> rcases a with _ | _ | _ | da <;> rcases b with _ | _ | _ | db
  all_goals try cases da
  all_goals try cases db
  all_goals cases lk <;> cases dn <;>
    simp_all [brokerSched, brokerStep, brokerInv, inCritSec, contributed, finishedTrue]

theorem brokerInv_run (sched : List Bool) : brokerInv (brokerRun sched) := by
  unfold brokerRun
  induction sched using List.reverseRecOn with
  | nil => exact brokerInv_init
  | append_singleton l c ih =>
    rw [List.foldl_append, List.foldl_cons, List.foldl_nil]
    exact brokerInv_step _ c ih

/-- Claim C1: for a fixed webhook delivery identifier processed by two
concurrently interleaved plugin instances, the per-channel chat-post side
effect executes at most once under every schedule, and exactly once when
both instances have run to completion. -/
theorem brokerRun_at_most_once (sched : List Bool) :
    (brokerRun sched).sh.posts ≤ 1
    ∧ (isFinished (brokerRun sched).a = true → isFinished (brokerRun sched).b = true →
        (brokerRun sched).sh.posts = 1) := by
  obtain ⟨h1, h2, h3, h4, h5, h6⟩ := brokerInv_run sched
  generalize hgen : brokerRun sched = st at h3 h5 h6 ⊢
  obtain ⟨⟨lk, dn, ps⟩, a, b⟩ := st
  constructor
  · show ps ≤ 1
    rcases a with _ | _ | _ | da <;> rcases b with _ | _ | _ | db
    all_goals try cases da
    all_goals try cases db
    all_goals simp_all [contributed]
  · intro hfa hfb
    show ps = 1
    rcases a with _ | _ | _ | da <;> rcases b with _ | _ | _ | db
    all_goals try cases da
    all_goals try cases db
    all_goals simp_all [isFinished, contributed]

theorem brokerRun_at_most_once_witness :
    (brokerRun [true, true, true, false, false]).sh.posts = 1 :=
  (brokerRun_at_most_once [true, true, true, false, false]).2
    (by decide) (by decide)

/-! ## Subscription flags and the subscribe/unsubscribe/default-repo
handlers (command.go, subscriptions.go) -/

def flagExcludeOrgMember : String := "exclude-org-member"
def flagIncludeOnlyOrgMembers : String := "include-only-org-members"
def flagRenderStyle : String := "render-style"
def flagFeatures : String := "features"
def flagExcludeRepository : String := "exclude"

/-- Go `strconv.ParseBool`. -/
def strconvParseBool (value : String) : Option Bool :=
  if value = "1" ∨ value = "t" ∨ value = "T" ∨ value = "TRUE"
      ∨ value = "true" ∨ value = "True" then some true
  else if value = "0" ∨ value = "f" ∨ value = "F" ∨ value = "FALSE"
      ∨ value = "false" ∨ value = "False" then some false
  else none

/-- `SubscriptionFlags.AddFlag` (subscriptions.go); `none` is the
`strconv.ParseBool` error return. -/
def addFlag (s : SubscriptionFlags) (flag value : String) : Option SubscriptionFlags :=
  if flag = flagExcludeOrgMember then
    (strconvParseBool value).map (fun b => { s with ExcludeOrgMembers := b })
  else if flag = flagIncludeOnlyOrgMembers then
    (strconvParseBool value).map (fun b => { s with IncludeOnlyOrgMembers := b })
  else if flag = flagRenderStyle then
    some { s with RenderStyle := value }
  else if flag = flagExcludeRepository then
    some { s with ExcludeRepository := (goSplit value ',').map goTrimSpace }
  else some s

/-- Modelled from the spec: `isFlag` lives in a repository file not under
src/; the spec's flag format is `--<name> <value>`. -/
def isFlag (text : String) : Bool :=
  goStartsWith text "--"

/-- Modelled from the spec: `parseFlag` lives in a repository file not
under src/; it strips the leading `--` of a `--<name> <value>` flag. -/
def parseFlag (flag : String) : String :=
  if goStartsWith flag "--" then String.mk (flag.toList.drop 2) else flag

/-- Modelled from the spec: `parseOwnerAndRepo` lives in a repository file
not under src/; the spec describes the repository argument as `"owner"`
(org-wide) or `"owner/repo"`, optionally prefixed with the GitHub base
URL. -/
def parseOwnerAndRepo (full baseURL : String) : String × String :=
  let full := if goStartsWith full baseURL then
      String.mk (full.toList.drop baseURL.toList.length) else full
  match goSplit full '/' with
  | [owner] => (owner, "")
  | [owner, repo] => (owner, repo)
  | _ => ("", "")

/-- Modelled from the spec: `fullNameFromOwnerAndRepo` lives in a
repository file not under src/; the repository key is `"owner/repo"` (the
org-wide key being `"owner/"`). -/
def fullNameFromOwnerAndRepo (owner repo : String) : String :=
  owner ++ "/" ++ repo

/-- The flag-pair loop of `handleSubscribesAdd` (command.go lines
430-446), two parameters at a time; errors are the early returns. -/
def parseFlagPairs (fs : Features) (flags : SubscriptionFlags) :
    List String → Except String (Features × SubscriptionFlags)
  | [] => Except.ok (fs, flags)
  | [_] => Except.error "Please use the correct format for flags: --<name> <value>"
  | flag :: value :: rest =>
    if isFlag flag then
      let parsedFlag := parseFlag flag
      if parsedFlag = flagFeatures then parseFlagPairs value flags rest
      else
        match addFlag flags parsedFlag value with
        | some newFlags => parseFlagPairs fs newFlags rest
        | none => Except.error ("Unsupported value for flag " ++ flag)
    else Except.error "Please use the correct format for flags: --<name> <value>"

/-- Flag/feature phase of `handleSubscribesAdd` (command.go lines
416-467): default features, flag parsing, conflict check and validation;
errors are the early-returned messages. -/
def subAddParsePhase (parameters : List String) :
    Except String (Features × SubscriptionFlags) :=
  let defaultEvents : Features := "pulls,issues,creates,deletes"
  if parameters.length > 1 then
    let flagParams := parameters.drop 1
    if flagParams.length % 2 ≠ 0 then
      Except.error "Please use the correct format for flags: --<name> <value>"
    else
      match parseFlagPairs defaultEvents {} flagParams with
      | Except.error msg => Except.error msg
      | Except.ok (subscriptionEvents, flags) =>
        let fs := featuresToSlice subscriptionEvents
        if (checkFeatureConflict fs).1 = false then
          match (checkFeatureConflict fs).2 with
          | [a, b] => Except.error ("Feature list cannot contain both " ++ a ++ " and " ++ b)
          | conflictingFs =>
            Except.error ("Conflicting feature(s) provided: " ++ goJoin conflictingFs ',')
        else if (validateFeatures fs).1 = false then
          Except.error (if (validateFeatures fs).2.length = 0 then
              "Feature list must have \"pulls\", \"issues\" or \"issue_creations\" when using a label."
            else "Invalid feature(s) provided: " ++ goJoin (validateFeatures fs).2 ',')
        else Except.ok (subscriptionEvents, flags)
  else Except.ok (defaultEvents, {})

/-- External side effects of `handleSubscribesAdd`. -/
inductive SubAddEffect where
  | subscribeOrg (userID owner channelID : String) (features : Features) (flags : SubscriptionFlags)
  | subscribeRepo (userID owner repo channelID : String) (features : Features) (flags : SubscriptionFlags)
  | createPost (channelID userID message : String)
  deriving Repr, DecidableEq

/-- Environment of `handleSubscribesAdd`: the outcomes of its external
calls (chat identity, KV store, GitHub API, post sink). -/
structure SubAddEnv where
  baseURL : String
  userRes : Except String String
  prevFeaturesRes : Except String Features
  subscribeOrgRes : Except String Unit
  subscribeRes : Except String Unit
  createPostOrgRes : Except String Unit
  createPostRepoRes : Except String Unit
  repoGetRes : Except String Bool
  webhookRes : Except String Bool

def errorNoWebhookFound : String :=
  "\n**Note:** No webhook was found for this repository or organization. To create one, enter the following slash command `/github setup webhook`"

/-- `handleSubscribesAdd` (command.go lines 414-564): returns the message
and the external side effects performed. -/
def handleSubscribesAdd (env : SubAddEnv) (userID channelID botUserID : String)
    (parameters : List String) : String × List SubAddEffect :=
  match parameters with
  | [] => ("Please specify a repository.", [])
  | p0 :: _ =>
    match subAddParsePhase parameters with
    | Except.error msg => (msg, [])
    | Except.ok (subscriptionEvents, flags) =>
      match env.userRes with
      | Except.error e => ("failed to get the user: " ++ e, [])
      | Except.ok username =>
        let owner := (parseOwnerAndRepo p0 env.baseURL).1
        let repo := (parseOwnerAndRepo p0 env.baseURL).2
        match env.prevFeaturesRes with
        | Except.error e => ("failed to get the subscribed events: " ++ e, [])
        | Except.ok previousSubscribedEvents =>
          let previousSubscribedEventMessage :=
            "\nThe previous subscription with: "
              ++ featuresFormattedString previousSubscribedEvents ++ " was overwritten.\n"
          if repo = "" then
            match env.subscribeOrgRes with
            | Except.error e =>
              ("failed to get the subscribed org: " ++ e,
               [SubAddEffect.subscribeOrg userID owner channelID subscriptionEvents flags])
            | Except.ok _ =>
              let orgLink := env.baseURL ++ owner
              let subscriptionSuccess :=
                "@" ++ username ++ " subscribed this channel to [" ++ owner ++ "]("
                  ++ orgLink ++ ") with the following events: "
                  ++ featuresFormattedString subscriptionEvents ++ "."
              let subscriptionSuccess :=
                if previousSubscribedEvents ≠ "" then
                  subscriptionSuccess ++ previousSubscribedEventMessage
                else subscriptionSuccess
              let effs := [SubAddEffect.subscribeOrg userID owner channelID subscriptionEvents flags,
                           SubAddEffect.createPost channelID botUserID subscriptionSuccess]
              match env.createPostOrgRes with
              | Except.error e =>
                (subscriptionSuccess ++ " error creating the public post: " ++ e, effs)
              | Except.ok _ =>
                match env.webhookRes with
                | Except.error e =>
                  if goContainsSub e "404 Not Found" then ("", effs)
                  else ("failed to get the list of webhooks: " ++ e, effs)
                | Except.ok found =>
                  if !found then (errorNoWebhookFound, effs)
                  else ("Successfully subscribed to organization " ++ owner ++ ".", effs)
          else
            if flags.ExcludeRepository.length > 0 then
              ("Exclude repository feature is only available to subscriptions of an organization.", [])
            else
              match env.subscribeRes with
              | Except.error e =>
                ("failed to create a subscription: " ++ e,
                 [SubAddEffect.subscribeRepo userID owner repo channelID subscriptionEvents flags])
              | Except.ok _ =>
                let repoLink := env.baseURL ++ owner ++ "/" ++ repo
                let msg :=
                  "@" ++ username ++ " subscribed this channel to [" ++ owner ++ "/" ++ repo
                    ++ "](" ++ repoLink ++ ") with the following events: "
                    ++ featuresFormattedString subscriptionEvents
                let msg :=
                  if previousSubscribedEvents ≠ "" then msg ++ previousSubscribedEventMessage
                  else msg
                let msg :=
                  match env.repoGetRes with
                  | Except.ok true =>
                    msg ++ "\n\n**Warning:** You subscribed to a private repository. Anyone with access to this channel will be able to read the events getting posted here."
                  | _ => msg
                let effs := [SubAddEffect.subscribeRepo userID owner repo channelID subscriptionEvents flags,
                             SubAddEffect.createPost channelID botUserID msg]
                match env.createPostRepoRes with
                | Except.error e => (msg ++ "\nError creating the public post: " ++ e, effs)
                | Except.ok _ =>
                  match env.webhookRes with
                  | Except.error e =>
                    if goContainsSub e "404 Not Found" then ("", effs)
                    else ("failed to get the list of webhooks: " ++ e, effs)
                  | Except.ok found =>
                    if !found then (errorNoWebhookFound, effs) else (msg, effs)

/-- Claim C3: a subscribe-add command that names a concrete `owner/repo`
repository and carries a non-empty exclude-repository list (with the flag
and feature phase succeeding and the user/previous-subscription lookups
available) is rejected with the organization-only message, and no
subscription and no other side effect is created. -/
theorem handleSubscribesAdd_exclude_repo_only_org
    (env : SubAddEnv) (userID channelID botUserID p0 : String) (rest : List String)
    (fs : Features) (flags : SubscriptionFlags)
    (hparse : subAddParsePhase (p0 :: rest) = Except.ok (fs, flags))
    (hexcl : flags.ExcludeRepository ≠ [])
    (hrepo : (parseOwnerAndRepo p0 env.baseURL).2 ≠ "")
    (husr : ∃ u, env.userRes = Except.ok u)
    (hprev : ∃ f, env.prevFeaturesRes = Except.ok f) :
    handleSubscribesAdd env userID channelID botUserID (p0 :: rest)
      = ("Exclude repository feature is only available to subscriptions of an organization.",
         []) := by
  obtain ⟨u, hu⟩ := husr
  obtain ⟨pf, hp⟩ := hprev
  have hlen : flags.ExcludeRepository.length > 0 := List.length_pos.mpr hexcl
  unfold handleSubscribesAdd
  simp only [hparse, hu, hp, if_neg hrepo, if_pos hlen]

theorem handleSubscribesAdd_exclude_repo_only_org_witness :
    handleSubscribesAdd
      { baseURL := "https://github.com/", userRes := Except.ok "alice",
        prevFeaturesRes := Except.ok "", subscribeOrgRes := Except.ok (),
        subscribeRes := Except.ok (), createPostOrgRes := Except.ok (),
        createPostRepoRes := Except.ok (), repoGetRes := Except.ok false,
        webhookRes := Except.ok true }
      "user1" "chan1" "bot1" ["acme/widgets", "--exclude", "acme/widgets"]
      = ("Exclude repository feature is only available to subscriptions of an organization.",
         []) :=
  handleSubscribesAdd_exclude_repo_only_org _ "user1" "chan1" "bot1"
    "acme/widgets" ["--exclude", "acme/widgets"]
    "pulls,issues,creates,deletes" { ExcludeRepository := ["acme/widgets"] }
    (by rfl) (by decide) (by decide) ⟨"alice", rfl⟩ ⟨"", rfl⟩

/-- External side effects of `handleUnsubscribe`. -/
inductive UnsubEffect where
  | unsubscribe (channelID repo owner : String)
  | createPost (channelID userID message : String)
  deriving Repr, DecidableEq

/-- Environment of `handleUnsubscribe`. -/
structure UnsubEnv where
  baseURL : String
  unsubscribeRes : Except String Unit
  userRes : Except String String
  createPostRes : Except String Unit

/-- `handleUnsubscribe` (command.go lines 588-635). -/
def handleUnsubscribe (env : UnsubEnv) (channelID botUserID : String)
    (parameters : List String) : String × List UnsubEffect :=
  match parameters with
  | [] => ("Please specify a repository.", [])
  | repoParam :: _ =>
    let owner0 := (parseOwnerAndRepo repoParam env.baseURL).1
    let repo0 := (parseOwnerAndRepo repoParam env.baseURL).2
    if owner0 = "" ∧ repo0 = "" then ("invalid repository", [])
    else
      let owner := goToLower owner0
      let repo := goToLower repo0
      match env.unsubscribeRes with
      | Except.error _ =>
        ("Encountered an error trying to unsubscribe. Please try again.",
         [UnsubEffect.unsubscribe channelID repo owner])
      | Except.ok _ =>
        match env.userRes with
        | Except.error e =>
          ("error while fetching user details: " ++ e,
           [UnsubEffect.unsubscribe channelID repo owner])
        | Except.ok username =>
          if repo = "" then
            let orgLink := env.baseURL ++ owner
            let m := "@" ++ username ++ " unsubscribed this channel from ["
              ++ owner ++ "](" ++ orgLink ++ ")"
            let effs := [UnsubEffect.unsubscribe channelID repo owner,
                         UnsubEffect.createPost channelID botUserID m]
            match env.createPostRes with
            | Except.error e => (m ++ " error creating the public post: " ++ e, effs)
            | Except.ok _ => ("", effs)
          else
            let repoLink := env.baseURL ++ owner ++ "/" ++ repo
            let m := "@" ++ username ++ " Unsubscribed this channel from ["
              ++ owner ++ "/" ++ repo ++ "](" ++ repoLink ++ ")"
            let m := m ++ "\n Please delete the [webhook](" ++ repoLink
              ++ "/settings/hooks) for this subscription unless it's required for other subscriptions."
            let effs := [UnsubEffect.unsubscribe channelID repo owner,
                         UnsubEffect.createPost channelID botUserID m]
            match env.createPostRes with
            | Except.error e => (m ++ " error creating the public post: " ++ e, effs)
            | Except.ok _ => ("", effs)

/-- External side effects of `handleSetDefaultRepo`. -/
inductive DefaultRepoEffect where
  | storeSet (key value : String)
  deriving Repr, DecidableEq

/-- Environment of `handleSetDefaultRepo`. -/
structure SetDefaultEnv where
  baseURL : String
  gitHubOrg : String
  repoGetRes : Except String Bool
  storeSetRes : Except String Unit

/-- The Go format string `DefaultRepoKey = "%s_%s-default-repo"` applied to
`(channelID, userID)`. -/
def defaultRepoKey (channelID userID : String) : String :=
  channelID ++ "_" ++ userID ++ "-default-repo"

/-- `handleSetDefaultRepo` (command.go lines 785-824). -/
def handleSetDefaultRepo (env : SetDefaultEnv) (channelID userID : String)
    (parameters : List String) : String × List DefaultRepoEffect :=
  match parameters with
  | [] => ("Please specify a repository.", [])
  | repoParam :: _ =>
    let owner0 := (parseOwnerAndRepo repoParam env.baseURL).1
    let repo0 := (parseOwnerAndRepo repoParam env.baseURL).2
    if owner0 = "" ∨ repo0 = "" then ("Please provide a valid repository", [])
    else
      let owner := goToLower owner0
      let repo := goToLower repo0
      if env.gitHubOrg ≠ "" ∧ goToLower env.gitHubOrg ≠ owner then
        ("Repository is not part of the locked Github organization. Locked Github organization: "
          ++ env.gitHubOrg, [])
      else
        match env.repoGetRes with
        | Except.error _ => ("Error occurred while getting github repository details", [])
        | Except.ok found =>
          if !found then ("Unknown repository " ++ fullNameFromOwnerAndRepo owner repo, [])
          else
            let effs := [DefaultRepoEffect.storeSet (defaultRepoKey channelID userID)
                          (owner ++ "/" ++ repo)]
            match env.storeSetRes with
            | Except.error _ => ("Error occurred saving the default repo", effs)
            | Except.ok _ =>
              let repoLink := env.baseURL ++ owner ++ "/" ++ repo
              ("The default repo has been set to [" ++ owner ++ "/" ++ repo ++ "]("
                ++ repoLink ++ ") for this channel", effs)

/-- Claim C5: repository keys are case-folded to lowercase before store
operations: every `Unsubscribe` effect of `handleUnsubscribe` carries the
lowercased parsed owner and repo, and every store write of
`handleSetDefaultRepo` stores the lowercased `owner/repo` under the
channel/user default-repo key. -/
theorem repo_keys_lowercased
    (envU : UnsubEnv) (envD : SetDefaultEnv)
    (channelID botUserID userID p0 : String) (ps : List String) :
    (∀ ch r o, UnsubEffect.unsubscribe ch r o
        ∈ (handleUnsubscribe envU channelID botUserID (p0 :: ps)).2 →
      ch = channelID
        ∧ o = goToLower (parseOwnerAndRepo p0 envU.baseURL).1
        ∧ r = goToLower (parseOwnerAndRepo p0 envU.baseURL).2)
    ∧ (∀ k v, DefaultRepoEffect.storeSet k v
        ∈ (handleSetDefaultRepo envD channelID userID (p0 :: ps)).2 →
      k = defaultRepoKey channelID userID
        ∧ v = goToLower (parseOwnerAndRepo p0 envD.baseURL).1 ++ "/"
            ++ goToLower (parseOwnerAndRepo p0 envD.baseURL).2) := by
  constructor
  · intro ch r o hmem
    obtain ⟨bu, ur, us, cp⟩ := envU
    rcases ur with e1 | u1 <;> rcases us with e2 | u2 <;> rcases cp with e3 | u3 <;>
      simp_all [handleUnsubscribe] <;>
        split at hmem <;> simp_all <;>
          try (split at hmem <;> simp_all)
  · intro k v hmem
    obtain ⟨bu, go, rg, ss⟩ := envD
    rcases rg with e1 | found <;> rcases ss with e2 | u2 <;>
      simp_all [handleSetDefaultRepo] <;>
        split at hmem <;> simp_all <;>
          try (split at hmem <;> simp_all) <;>
            try (split at hmem <;> simp_all)

theorem repo_keys_lowercased_witness :
    DefaultRepoEffect.storeSet (defaultRepoKey "chan1" "user1") "acme/widgets"
      ∈ (handleSetDefaultRepo
          { baseURL := "https://github.com/", gitHubOrg := "",
            repoGetRes := Except.ok true, storeSetRes := Except.ok () }
          "chan1" "user1" ["Acme/Widgets"]).2
    ∧ (defaultRepoKey "chan1" "user1" = defaultRepoKey "chan1" "user1"
        ∧ "acme/widgets"
          = goToLower (parseOwnerAndRepo "Acme/Widgets" "https://github.com/").1 ++ "/"
            ++ goToLower (parseOwnerAndRepo "Acme/Widgets" "https://github.com/").2) :=
  ⟨by decide,
   (repo_keys_lowercased
      { baseURL := "https://github.com/", unsubscribeRes := Except.ok (),
        userRes := Except.ok "alice", createPostRes := Except.ok () }
      { baseURL := "https://github.com/", gitHubOrg := "",
        repoGetRes := Except.ok true, storeSetRes := Except.ok () }
      "chan1" "bot1" "user1" "Acme/Widgets" []).2
     (defaultRepoKey "chan1" "user1") "acme/widgets" (by decide)⟩

end GithubPlugin
